import Mathlib

/-!
# Verification of the file-sharing API core

A shallow embedding of the storage backend (`src/models/storage/storageInterface.js`,
class `LocalStorage`) and the quota engine (`services/rateLimit.service.js`, class
`RateLimitService`; plus the duplicated `controllers/rateLimit.controller.js` variant).

Modelling conventions:
* The storage folder is an association list from file names to entries, in
  `readdir` enumeration order.  A payload file holds its byte list; a metadata
  file (`<publicKey>.meta`) holds either a parsed metadata record (`metaOk`) or
  an unparsable raw string (`metaBad`, on which `JSON.parse` throws).
* Timestamps are integer epoch milliseconds; `new Date().toISOString()` values
  are passed in as explicit `now` parameters.
* JavaScript errors are records carrying `message`, optional `code`
  (e.g. `"ENOENT"`), and optional `statusCode`; fallible operations return
  `Except JsErr`.
* `generateKeys()` is random, so the generated key pair is passed as an
  explicit argument to `uploadFile`.
* The Redis counter store is an association list of counters plus recorded
  expiries; `INCRBY` with a missing / non-numeric amount fails (as the real
  client/server does), leaving the counter untouched.
-/

set_option linter.unusedVariables false

namespace FileSharing

/-- Byte sequences are lists of byte values. -/
abbrev Bytes := List Nat

/-- A JavaScript `Error` as thrown/caught by the service code. -/
structure JsErr where
  message : String
  code : Option String := none
  statusCode : Option Nat := none
deriving Repr, DecidableEq

/-- The `ENOENT` error raised by `fs` when a path does not exist. -/
def enoent (p : String) : JsErr :=
  { message := "ENOENT: no such file or directory " ++ p, code := some "ENOENT" }

/-- The error thrown by `JSON.parse` on unparsable input. -/
def jsonParseErr : JsErr :=
  { message := "Unexpected token in JSON" }

/-- The metadata record written by `_saveMetadata` / read back by the other
operations (fields as in the source). -/
structure Metadata where
  privateKey : String
  originalName : String
  mimeType : String
  size : Int
  uploadedAt : Int
  lastAccessed : Int
deriving Repr, DecidableEq

/-- Content of one directory entry of the storage folder. -/
inductive Entry where
  | file (bytes : Bytes)
  | metaOk (m : Metadata)
  | metaBad (raw : String)
deriving Repr, DecidableEq

/-- Lookup (first entry with the given name), as the filesystem resolves paths. -/
def lookupL : List (String × Entry) → String → Option Entry
  | [], _ => none
  | (k, v) :: rest, n => if k = n then some v else lookupL rest n

/-- Remove every entry with the given name (`fs.unlink`). -/
def removeL : List (String × Entry) → String → List (String × Entry)
  | [], _ => []
  | (k, v) :: rest, n => if k = n then removeL rest n else (k, v) :: removeL rest n

/-- The storage folder: named entries in `readdir` enumeration order. -/
structure Dir where
  entries : List (String × Entry)
deriving Repr, DecidableEq

namespace Dir

def lookup (d : Dir) (n : String) : Option Entry := lookupL d.entries n

/-- `fs.readdir` of the folder. -/
def names (d : Dir) : List String := d.entries.map Prod.fst

/-- Write (create or overwrite) a file. -/
def write (d : Dir) (n : String) (e : Entry) : Dir :=
  ⟨removeL d.entries n ++ [(n, e)]⟩

/-- `fsp.unlink(n).catch(() => {})`: remove if present, never fails. -/
def unlinkQuiet (d : Dir) (n : String) : Dir := ⟨removeL d.entries n⟩

end Dir

/-! ## JavaScript string and number helpers

`parseInt`, `String.prototype.slice`, `String.prototype.endsWith` and
`String.prototype.replace(".meta", "")` are JS built-ins used by the source;
they are embedded here on decimal-digit content.  `none` stands for `NaN`. -/

/-- Value of a decimal digit character. -/
def digitVal (c : Char) : Nat := c.toNat - '0'.toNat

/-- Numeric value of a list of decimal digits (most significant first). -/
def digitsToNat (cs : List Char) : Nat :=
  cs.foldl (fun acc c => acc * 10 + digitVal c) 0

/-- Value of the longest prefix of decimal digits; `none` when it is empty
(JS `NaN`). -/
def digitsPrefixVal (cs : List Char) : Option Nat :=
  if (cs.takeWhile Char.isDigit).isEmpty then none
  else some (digitsToNat (cs.takeWhile Char.isDigit))

/-- JS `parseInt(s)` (radix 10): longest prefix of decimal digits after an
optional sign; `none` models `NaN`. -/
def jsParseIntCh : List Char → Option Int
  | [] => none
  | c :: rest =>
    if c = '-' then (digitsPrefixVal rest).map (fun n => -(n : Int))
    else if c = '+' then (digitsPrefixVal rest).map (fun n => (n : Int))
    else (digitsPrefixVal (c :: rest)).map (fun n => (n : Int))

/-- JS `parseInt` on a string. -/
def jsParseInt (s : String) : Option Int := jsParseIntCh s.data

/-- JS `s.slice(-2)`: the last two characters (whole string when shorter). -/
def jsSliceLast2 (s : String) : String := String.mk (s.data.drop (s.data.length - 2))

/-- JS `s.slice(0, -2)`: everything except the last two characters. -/
def jsDropLast2 (s : String) : String := String.mk (s.data.take (s.data.length - 2))

/-- The characters of the `".meta"` metadata suffix. -/
def metaSuffix : List Char := ['.', 'm', 'e', 't', 'a']

/-- JS `f.replace(".meta", "")`: delete the first occurrence of `".meta"`. -/
def removeFirstMetaAux : List Char → List Char
  | [] => []
  | c :: cs =>
    if c = '.' ∧ cs.take 4 = ['m', 'e', 't', 'a'] then cs.drop 4
    else c :: removeFirstMetaAux cs

/-- JS `f.replace(".meta", "")` on a string. -/
def replaceFirstMeta (s : String) : String := String.mk (removeFirstMetaAux s.data)

/-- JS `f.endsWith(".meta")`. -/
def endsWithMeta (s : String) : Bool :=
  s.data.drop (s.data.length - 5) = metaSuffix

/-! ## LocalStorage operations (`src/models/storage/storageInterface.js`) -/

/-- `JSON.parse(await fsp.readFile(metaPath, "utf8"))` on a directory entry:
a parsable metadata file yields its record, anything else throws. -/
def parseMetaContent : Option Entry → Except JsErr Metadata
  | some (.metaOk m) => .ok m
  | some (.metaBad _) => .error jsonParseErr
  | some (.file _) => .error jsonParseErr
  | none => .error (enoent "missing")

/-- The multer-style file object passed to `uploadFile`.  `originalname = none`
models a missing or non-string field. -/
structure UploadFile where
  buffer : Option Bytes
  stream : Option Bytes
  originalname : Option String
  mimetype : String
  size : Int
deriving Repr, DecidableEq

/-- I/O events performed by `uploadFile`, in order. -/
inductive Ev where
  | wrotePayload
  | wroteMeta
  | unlinkedPayload
  | unlinkedMeta
deriving Repr, DecidableEq

/-- JS truthiness/type check `!file.originalname || typeof file.originalname !== "string"`
(negated): a present, non-empty string. -/
def validName : Option String → Bool
  | none => false
  | some s => !(s = "")

/-- `LocalStorage._saveMetadata(publicKey, file, privateKey)`. -/
def saveMetadata (d : Dir) (pk : String) (f : UploadFile) (sk : String) (now : Int) :
    Except JsErr Dir :=
  if validName f.originalname then
    .ok (d.write (pk ++ ".meta") (.metaOk
      { privateKey := sk
        originalName := f.originalname.getD ""
        mimeType := f.mimetype
        size := f.size
        uploadedAt := now
        lastAccessed := now }))
  else
    .error { message := "Invalid original filename" }

/-- `LocalStorage._cleanupFailedUpload(filePath)`: unlink the payload; if that
throws (file absent) the error is swallowed and the `.meta` unlink is skipped;
the `.meta` unlink itself has a `.catch(() => {})`. -/
def cleanupFailedUpload (d : Dir) (pk : String) : Dir × List Ev :=
  if (d.lookup pk).isSome then
    let d1 := d.unlinkQuiet pk
    if (d1.lookup (pk ++ ".meta")).isSome then
      (d1.unlinkQuiet (pk ++ ".meta"), [Ev.unlinkedPayload, Ev.unlinkedMeta])
    else
      (d1, [Ev.unlinkedPayload])
  else
    (d, [])

/-- Tail of `LocalStorage.uploadFile` after the payload has been persisted:
save metadata, or clean up and propagate the error. -/
def finishUpload (d : Dir) (pk sk : String) (f : UploadFile) (now : Int)
    (evs : List Ev) : Except JsErr (String × String) × Dir × List Ev :=
  match saveMetadata d pk f sk now with
  | .ok d2 => (.ok (pk, sk), d2, evs ++ [Ev.wroteMeta])
  | .error e =>
    let (d2, evs2) := cleanupFailedUpload d pk
    (.error e, d2, evs ++ evs2)

/-- `LocalStorage.uploadFile(file)`.  The generated key pair is passed in
(`generateKeys()` is random); `fs.createWriteStream` creates/truncates the
payload file before any bytes are written. -/
def uploadFile (d : Dir) (pk sk : String) (f : UploadFile) (now : Int) :
    Except JsErr (String × String) × Dir × List Ev :=
  let d0 := d.write pk (.file [])
  match f.buffer with
  | some bs => finishUpload (d0.write pk (.file bs)) pk sk f now [Ev.wrotePayload]
  | none =>
    match f.stream with
    | some bs => finishUpload (d0.write pk (.file bs)) pk sk f now [Ev.wrotePayload]
    | none =>
      let (d2, evs2) := cleanupFailedUpload d0 pk
      (.error { message := "No valid file data found" }, d2, evs2)

/-- The catch block of `LocalStorage.downloadFile`: an `ENOENT` failure is
rewritten to a 404 "File not found", everything else is rethrown unchanged. -/
def mapDownloadErr (pk : String) (e : JsErr) : JsErr :=
  if e.code = some "ENOENT" then
    { e with message := "File not found: " ++ pk, statusCode := some 404 }
  else e

/-- `fsp.stat(filePath).size` for an entry. -/
def statSize : Option Entry → Int
  | some (.file bs) => (bs.length : Int)
  | some (.metaOk _) => 0
  | some (.metaBad raw) => (raw.length : Int)
  | none => 0

/-- `fs.createReadStream(filePath)` drained to its bytes. -/
def readBytes (d : Dir) (n : String) : Bytes :=
  match d.lookup n with
  | some (.file bs) => bs
  | _ => []

/-- The value resolved by `LocalStorage.downloadFile`. -/
structure DownloadResult where
  stream : Bytes
  mimeType : String
  originalName : String
  size : Int
deriving Repr, DecidableEq

/-- `LocalStorage.downloadFile(publicKey)`.  `touchFault` injects a failure of
the `fsp.writeFile` that refreshes `lastAccessed` (the touch-write); `none`
means that write succeeds. -/
def downloadFile (d : Dir) (pk : String) (now : Int) (touchFault : Option JsErr) :
    Except JsErr DownloadResult × Dir :=
  let metaPath := pk ++ ".meta"
  if (d.lookup metaPath).isNone then
    (.error (mapDownloadErr pk (enoent metaPath)), d)
  else if (d.lookup pk).isNone then
    (.error (mapDownloadErr pk (enoent pk)), d)
  else
    match parseMetaContent (d.lookup metaPath) with
    | .error e => (.error (mapDownloadErr pk e), d)
    | .ok m =>
      match touchFault with
      | some e => (.error (mapDownloadErr pk e), d)
      | none =>
        let m2 := { m with lastAccessed := now }
        let d2 := d.write metaPath (.metaOk m2)
        (.ok { stream := readBytes d2 pk
               mimeType := m2.mimeType
               originalName := m2.originalName
               size := statSize (d2.lookup pk) }, d2)

/-- The catch block of `LocalStorage.deleteFile`: attach `statusCode = 500`
when the error carries none. -/
def withStatus500 (e : JsErr) : JsErr :=
  if e.statusCode.isNone then { e with statusCode := some 500 } else e

/-- The metadata-file listing `files.filter((f) => f.endsWith(".meta"))`. -/
def Dir.metaFiles (d : Dir) : List String := d.names.filter endsWithMeta

/-- The scan loop of `LocalStorage.deleteFile`: walk the metadata files in
enumeration order, stop at the first record whose `privateKey` matches;
`JSON.parse` failures abort the scan. -/
def scanGo (d : Dir) (sk : String) : List String → Except JsErr (Option String)
  | [] => .ok none
  | f :: rest =>
    match parseMetaContent (d.lookup f) with
    | .error e => .error e
    | .ok m =>
      if m.privateKey = sk then .ok (some (replaceFirstMeta f))
      else scanGo d sk rest

/-- The private-key resolution of `LocalStorage.deleteFile`. -/
def scanPrivateKey (d : Dir) (sk : String) : Except JsErr (Option String) :=
  scanGo d sk d.metaFiles

/-- `LocalStorage.deleteFile(privateKey)`.  `Promise.all` attempts both
unlinks; the call fails (status 500) when either path was absent. -/
def deleteFile (d : Dir) (sk : String) : Except JsErr Bool × Dir :=
  match scanPrivateKey d sk with
  | .error e => (.error (withStatus500 e), d)
  | .ok none => (.error { message := "Invalid private key", statusCode := some 500 }, d)
  | .ok (some pk) =>
    let okF := (d.lookup pk).isSome
    let okM := (d.lookup (pk ++ ".meta")).isSome
    let d2 := (d.unlinkQuiet pk).unlinkQuiet (pk ++ ".meta")
    if okF && okM then (.ok true, d2)
    else (.error (withStatus500 (enoent (if okF then pk ++ ".meta" else pk))), d2)

/-- `LocalStorage.parseInactivityPeriod(period)` in milliseconds; `none`
models the `NaN` produced when the value part does not parse. -/
def parseInactivityPeriod (period : String) : Option Int :=
  let value := jsParseIntCh period.data.dropLast
  match period.data.getLast? with
  | some c =>
    if c = 'd' then value.map (· * (24 * 60 * 60 * 1000))
    else if c = 'h' then value.map (· * (60 * 60 * 1000))
    else if c = 'm' then value.map (· * (60 * 1000))
    else some (30 * 24 * 60 * 60 * 1000)
  | none => some (30 * 24 * 60 * 60 * 1000)

/-- `new Date(metaData.lastAccessed) < cutoff`; a `NaN` cutoff compares false. -/
def isStale (lastAccessed : Int) (cutoff : Option Int) : Bool :=
  match cutoff with
  | some c => lastAccessed < c
  | none => false

/-- `LocalStorage._deleteByPublicKey(publicKey)`: both unlinks carry
`.catch(() => {})`. -/
def deleteByPublicKey (d : Dir) (pk : String) : Dir :=
  (d.unlinkQuiet pk).unlinkQuiet (pk ++ ".meta")

/-- One error report pushed to the `errors` array of the cleanup sweep. -/
structure ErrEntry where
  file : String
  error : String
deriving Repr, DecidableEq

/-- The per-metadata-file loop of `LocalStorage.cleanupInactiveFiles`:
each iteration is wrapped in `try/catch`, failures are appended to `errors`
and the loop continues. -/
def cleanupGo (cutoff : Option Int) :
    List String → Dir → Nat → List ErrEntry → Nat × List ErrEntry × Dir
  | [], d, cnt, errs => (cnt, errs, d)
  | f :: rest, d, cnt, errs =>
    match parseMetaContent (d.lookup f) with
    | .error e => cleanupGo cutoff rest d cnt (errs ++ [⟨f, e.message⟩])
    | .ok m =>
      if isStale m.lastAccessed cutoff then
        cleanupGo cutoff rest (deleteByPublicKey d (replaceFirstMeta f)) (cnt + 1) errs
      else
        cleanupGo cutoff rest d cnt errs

/-- The aggregate returned by the cleanup sweep. -/
structure CleanupResult where
  deletedCount : Nat
  errorCount : Nat
  errors : List ErrEntry
deriving Repr, DecidableEq

/-- `LocalStorage.cleanupInactiveFiles(inactivityPeriod)`. -/
def cleanupInactiveFiles (d : Dir) (period : String) (now : Int) :
    CleanupResult × Dir :=
  let cutoff := (parseInactivityPeriod period).map (fun dur => now - dur)
  let r := cleanupGo cutoff d.metaFiles d 0 []
  ({ deletedCount := r.1, errorCount := r.2.1.length, errors := r.2.1 }, r.2.2)

/-- Whether an iteration of the cleanup loop would delete the object behind
metadata file `f` of `d`: its record parses and its `lastAccessed` is
strictly before the cutoff. -/
def staleOkB (d : Dir) (cutoff : Option Int) (f : String) : Bool :=
  match parseMetaContent (d.lookup f) with
  | .ok m => isStale m.lastAccessed cutoff
  | .error _ => false

/-- The error report an iteration of the cleanup loop pushes for metadata
file `f` of `d`, if any. -/
def errOf (d : Dir) (f : String) : Option ErrEntry :=
  match parseMetaContent (d.lookup f) with
  | .error e => some ⟨f, e.message⟩
  | .ok _ => none

/-- A well-formed metadata file name: `<publicKey>.meta` where the public key
contains no dot (as the hex keys generated by `generateKeys` do). -/
def SimpleMetaName (f : String) : Prop :=
  ∃ pk : String, ('.' ∉ pk.data) ∧ f = pk ++ ".meta"

/-! ## Quota engine (`services/rateLimit.service.js`, `RateLimitService`) -/

/-- The external Redis counter store: integer counters plus the recorded
expiry (seconds) last set per key. -/
structure Redis where
  counters : List (String × Int)
  ttls : List (String × Nat)
deriving Repr, DecidableEq

/-- Association-list lookup for counters. -/
def lookupC : List (String × Int) → String → Option Int
  | [], _ => none
  | (k, v) :: rest, n => if k = n then some v else lookupC rest n

/-- Association-list lookup for recorded expiries. -/
def lookupT : List (String × Nat) → String → Option Nat
  | [], _ => none
  | (k, v) :: rest, n => if k = n then some v else lookupT rest n

/-- Replace-or-append update for counters. -/
def setC : List (String × Int) → String → Int → List (String × Int)
  | [], n, v => [(n, v)]
  | (k, w) :: rest, n, v => if k = n then (n, v) :: rest else (k, w) :: setC rest n v

/-- Replace-or-append update for expiries. -/
def setT : List (String × Nat) → String → Nat → List (String × Nat)
  | [], n, v => [(n, v)]
  | (k, w) :: rest, n, v => if k = n then (n, v) :: rest else (k, w) :: setT rest n v

namespace Redis

/-- `GET key` followed by `parseInt`: the stored counter value. -/
def get (r : Redis) (k : String) : Option Int := lookupC r.counters k

/-- `INCRBY key amount` for a numeric amount (cannot fail). -/
def incrByN (r : Redis) (k : String) (amt : Int) : Redis :=
  ⟨setC r.counters k ((r.get k).getD 0 + amt), r.ttls⟩

/-- `INCRBY key amount`: a missing / non-numeric amount (`none`) makes the
client call throw and leaves the store untouched. -/
def incrBy (r : Redis) (k : String) (amt : Option Int) : Except JsErr Redis :=
  match amt with
  | none => .error { message := "ERR value is not an integer or out of range" }
  | some a => .ok (r.incrByN k a)

/-- `EXPIRE key seconds`. -/
def expire (r : Redis) (k : String) (secs : Nat) : Redis :=
  ⟨r.counters, setT r.ttls k secs⟩

/-- `SETEX key seconds value` (used by the controller variant). -/
def setex (r : Redis) (k : String) (secs : Nat) (v : Int) : Redis :=
  ⟨setC r.counters k v, setT r.ttls k secs⟩

/-- Recorded expiry for a key. -/
def ttlOf (r : Redis) (k : String) : Option Nat := lookupT r.ttls k

end Redis

/-- `RateLimitService.parseSize(sizeStr)`: last two characters are the unit,
matched case-sensitively; `none` models `NaN` (a `"MB"`/`"GB"` unit with an
unparsable value part). -/
def parseSize (sizeStr : String) : Option Int :=
  let unit := jsSliceLast2 sizeStr
  let value := jsParseInt (jsDropLast2 sizeStr)
  if unit = "MB" then value.map (· * (1024 * 1024))
  else if unit = "GB" then value.map (· * (1024 * 1024 * 1024))
  else some ((jsParseInt sizeStr).getD 0)

/-- Outcome of `RateLimitService.checkUploadLimit`. -/
inductive LimitDecision where
  | allowed (currentUsage limit remaining : Int)
  | denied (message : String) (statusCode : Nat) (currentUsage limit remaining : Int)
  | deniedUnavailable (message : String) (statusCode : Nat)
deriving Repr, DecidableEq

/-- `RateLimitService.checkUploadLimit(ip, fileSize)`.  The Redis key
(`upload:<ip>:<date>`) and the parsed `uploadLimit` are passed in explicitly;
the catch branch models a failing counter store. -/
def checkUploadLimit (r : Redis) (key : String) (fileSize : Int) (uploadLimit : Int) :
    LimitDecision × Redis :=
  let current := (r.get key).getD 0
  if current + fileSize > uploadLimit then
    (.denied "Daily upload limit exceeded" 429 current uploadLimit
      (max 0 (uploadLimit - current)), r)
  else
    match r.incrBy key (some fileSize) with
    | .error _ => (.deniedUnavailable "Rate limit service unavailable" 503, r)
    | .ok r1 =>
      let r2 := if current = 0 then r1.expire key 86400 else r1
      (.allowed (current + fileSize) uploadLimit (uploadLimit - (current + fileSize)), r2)

/-- `RateLimitService.trackDownload(ip, size)`: the raw `size` goes straight
to `INCRBY`; the catch branch attaches `statusCode = 503` and rethrows. -/
def trackDownload (r : Redis) (key : String) (size : Option Int) :
    Except JsErr Unit × Redis :=
  match r.incrBy key size with
  | .error e =>
    (.error (if e.statusCode.isNone then { e with statusCode := some 503 } else e), r)
  | .ok r1 =>
    let current := (r1.get key).getD 0
    let r2 := if some current = size then r1.expire key 86400 else r1
    (.ok (), r2)

/-- `RateLimitController._incrementWithTTL(key, value, ttl)` from the
duplicated `controllers/rateLimit.controller.js` variant: read, `INCRBY`,
and `SETEX key ttl value` when the previous value was 0. -/
def ctrlIncrementWithTTL (r : Redis) (key : String) (value : Int) (ttl : Nat) :
    Redis × Int :=
  let current := (r.get key).getD 0
  let r1 := r.incrByN key value
  let r2 := if current = 0 then r1.setex key ttl value else r1
  (r2, current)

/-- `RateLimitController.trackDownload(ip, size)` (duplicated variant):
`if (!size || isNaN(size)) size = 0` then increment with TTL. -/
def ctrlTrackDownload (r : Redis) (key : String) (size : Option Int) :
    Except JsErr Unit × Redis :=
  let sz : Int := match size with
    | none => 0
    | some s => if s = 0 then 0 else s
  let (r2, _) := ctrlIncrementWithTTL r key sz 86400
  (.ok (), r2)

/-! ## Digit strings and proof-side abbreviations -/

/-- A non-empty, all-decimal-digit string (e.g. the textual form of a
non-negative integer). -/
def isDigitStr (s : String) : Bool := !s.data.isEmpty && s.data.all Char.isDigit

/-- The integer a digit string denotes. -/
def strNatVal (s : String) : Nat := digitsToNat s.data

/-- The metadata record `_saveMetadata` builds for a fresh upload. -/
def mkMeta (sk F mt : String) (sz now : Int) : Metadata :=
  { privateKey := sk, originalName := F, mimeType := mt, size := sz,
    uploadedAt := now, lastAccessed := now }

/-! ## Theorems -/

@[simp] theorem lookupL_nil (n : String) : lookupL [] n = none := rfl

@[simp] theorem lookupL_cons (k : String) (v : Entry) (rest : List (String × Entry)) (n : String) :
    lookupL ((k, v) :: rest) n = if k = n then some v else lookupL rest n := rfl

theorem lookupL_append (l₁ l₂ : List (String × Entry)) (n : String) :
    lookupL (l₁ ++ l₂) n = ((lookupL l₁ n).elim (lookupL l₂ n) some) := by
  induction l₁ with
  | nil => simp
  | cons p rest ih =>
    obtain ⟨k, v⟩ := p
    by_cases h : k = n <;> simp [h, ih]

theorem lookupL_removeL (l : List (String × Entry)) (n n' : String) :
    lookupL (removeL l n) n' = if n' = n then none else lookupL l n' := by
  induction l with
  | nil => simp [removeL]
  | cons p rest ih =>
    obtain ⟨k, v⟩ := p
    by_cases h : k = n
    · subst h
      by_cases h2 : n' = k
      · subst h2
        simp [removeL, ih]
      · have h3 : ¬k = n' := fun hh => h2 hh.symm
        simp [removeL, ih, h2, h3]
    · by_cases h2 : k = n'
      · have h3 : ¬n' = n := fun hh => h (h2.trans hh)
        simp [removeL, h, h2, h3, ih]
      · by_cases h4 : n' = n
        · subst h4
          simp [removeL, h, h2, ih]
        · simp [removeL, h, h2, h4, ih]

theorem Dir.lookup_write (d : Dir) (n : String) (e : Entry) (n' : String) :
    (d.write n e).lookup n' = if n' = n then some e else d.lookup n' := by
  unfold Dir.write Dir.lookup
  rw [lookupL_append, lookupL_removeL]
  by_cases h : n' = n
  · subst h; simp
  · have h2 : ¬n = n' := fun hh => h hh.symm
    simp only [if_neg h, lookupL_cons, lookupL_nil, if_neg h2]
    cases lookupL d.entries n' <;> simp

theorem Dir.lookup_unlinkQuiet (d : Dir) (n : String) (n' : String) :
    (d.unlinkQuiet n).lookup n' = if n' = n then none else d.lookup n' := by
  unfold Dir.unlinkQuiet Dir.lookup
  exact lookupL_removeL d.entries n n'

theorem String.mk_data (s : String) : String.mk s.data = s := rfl

theorem string_data_append (a b : String) : (a ++ b).data = a.data ++ b.data := rfl

theorem append_meta_ne (pk : String) : pk ++ ".meta" ≠ pk := by
  intro h
  have h2 : (pk ++ ".meta").data.length = pk.data.length := congrArg (fun s => s.data.length) h
  rw [string_data_append] at h2
  simp at h2

theorem digit_ne_dash {c : Char} (h : c.isDigit = true) : ¬(c = '-') := by
  intro he
  subst he
  exact absurd h (by decide)

theorem digit_ne_plus {c : Char} (h : c.isDigit = true) : ¬(c = '+') := by
  intro he
  subst he
  exact absurd h (by decide)

theorem takeWhile_digits_append (cs rest : List Char) (h : ∀ c ∈ cs, c.isDigit = true)
    (hrest : ∀ c, rest.head? = some c → c.isDigit = false) :
    (cs ++ rest).takeWhile Char.isDigit = cs := by
  induction cs with
  | nil =>
    cases rest with
    | nil => rfl
    | cons r rs =>
      have hr : r.isDigit = false := hrest r rfl
      simp [List.takeWhile, hr]
  | cons c cs ih =>
    have hc : c.isDigit = true := h c (List.mem_cons_self c cs)
    have ih2 := ih (fun x hx => h x (List.mem_cons_of_mem c hx))
    simp [List.takeWhile, hc, ih2]

theorem jsParseIntCh_digits_append (cs rest : List Char) (hne : cs ≠ [])
    (h : ∀ c ∈ cs, c.isDigit = true)
    (hrest : ∀ c, rest.head? = some c → c.isDigit = false) :
    jsParseIntCh (cs ++ rest) = some ((digitsToNat cs : Int)) := by
  cases cs with
  | nil => exact absurd rfl hne
  | cons c cs' =>
    have hc : c.isDigit = true := h c (List.mem_cons_self c cs')
    have htw : ((c :: cs') ++ rest).takeWhile Char.isDigit = c :: cs' :=
      takeWhile_digits_append (c :: cs') rest h hrest
    simp only [List.cons_append] at htw
    simp only [jsParseIntCh, List.cons_append, if_neg (digit_ne_dash hc),
      if_neg (digit_ne_plus hc), digitsPrefixVal, htw]
    simp

theorem jsParseInt_digits (s : String) (h : isDigitStr s = true) :
    jsParseInt s = some ((strNatVal s : Int)) := by
  unfold isDigitStr at h
  rw [Bool.and_eq_true] at h
  obtain ⟨h1, h2⟩ := h
  have hne : s.data ≠ [] := by
    intro hh
    rw [hh] at h1
    exact absurd h1 (by decide)
  have hall : ∀ c ∈ s.data, c.isDigit = true := by
    intro c hc
    exact List.all_eq_true.mp h2 c hc
  have := jsParseIntCh_digits_append s.data [] hne hall (fun c hc => by simp at hc)
  rw [List.append_nil] at this
  exact this

/-- Counter-store lookup after update. -/
theorem lookupC_setC (l : List (String × Int)) (n n' : String) (v : Int) :
    lookupC (setC l n v) n' = if n' = n then some v else lookupC l n' := by
  induction l with
  | nil =>
    by_cases h : n' = n
    · simp [setC, lookupC, h]
    · have h2 : ¬n = n' := fun hh => h hh.symm
      simp [setC, lookupC, h, h2]
  | cons p rest ih =>
    obtain ⟨k, w⟩ := p
    by_cases h : k = n
    · subst h
      by_cases h2 : n' = k
      · subst h2
        simp [setC, lookupC]
      · have h3 : ¬k = n' := fun hh => h2 hh.symm
        simp [setC, lookupC, h2, h3]
    · by_cases h2 : k = n'
      · have h3 : ¬n' = n := fun hh => h (h2.trans hh)
        simp [setC, lookupC, h, h2, h3]
      · simp [setC, lookupC, h, h2, ih]

/-- Expiry lookup after update. -/
theorem lookupT_setT (l : List (String × Nat)) (n n' : String) (v : Nat) :
    lookupT (setT l n v) n' = if n' = n then some v else lookupT l n' := by
  induction l with
  | nil =>
    by_cases h : n' = n
    · simp [setT, lookupT, h]
    · have h2 : ¬n = n' := fun hh => h hh.symm
      simp [setT, lookupT, h, h2]
  | cons p rest ih =>
    obtain ⟨k, w⟩ := p
    by_cases h : k = n
    · subst h
      by_cases h2 : n' = k
      · subst h2
        simp [setT, lookupT]
      · have h3 : ¬k = n' := fun hh => h2 hh.symm
        simp [setT, lookupT, h2, h3]
    · by_cases h2 : k = n'
      · have h3 : ¬n' = n := fun hh => h (h2.trans hh)
        simp [setT, lookupT, h, h2, h3]
      · simp [setT, lookupT, h, h2, ih]

theorem Redis.get_incrByN (r : Redis) (k : String) (a : Int) :
    (r.incrByN k a).get k = some ((r.get k).getD 0 + a) := by
  unfold Redis.incrByN Redis.get
  simp [lookupC_setC]

theorem Redis.get_expire (r : Redis) (k k' : String) (secs : Nat) :
    (r.expire k secs).get k' = r.get k' := rfl

theorem Redis.ttlOf_expire (r : Redis) (k : String) (secs : Nat) :
    (r.expire k secs).ttlOf k = some secs := by
  unfold Redis.expire Redis.ttlOf
  simp [lookupT_setT]

theorem Redis.ttlOf_incrByN (r : Redis) (k k' : String) (a : Int) :
    (r.incrByN k a).ttlOf k' = r.ttlOf k' := rfl

theorem Redis.get_setex (r : Redis) (k : String) (secs : Nat) (v : Int) (k' : String) :
    (r.setex k secs v).get k' = if k' = k then some v else r.get k' := by
  unfold Redis.setex Redis.get
  simp [lookupC_setC]

theorem jsSliceLast2_append2 (s t : String) (h : t.data.length = 2) :
    jsSliceLast2 (s ++ t) = t := by
  unfold jsSliceLast2
  rw [string_data_append]
  have hlen : (s.data ++ t.data).length - 2 = s.data.length := by
    simp [h]
  rw [hlen, List.drop_left]

theorem jsDropLast2_append2 (s t : String) (h : t.data.length = 2) :
    jsDropLast2 (s ++ t) = s := by
  unfold jsDropLast2
  rw [string_data_append]
  have hlen : (s.data ++ t.data).length - 2 = s.data.length := by
    simp [h]
  rw [hlen, List.take_left]

theorem parseSize_MB (s : String) (h : isDigitStr s = true) :
    parseSize (s ++ "MB") = some ((strNatVal s : Int) * 1048576) := by
  unfold parseSize
  rw [jsSliceLast2_append2 s "MB" rfl, jsDropLast2_append2 s "MB" rfl,
    jsParseInt_digits s h]
  norm_num

theorem parseSize_GB (s : String) (h : isDigitStr s = true) :
    parseSize (s ++ "GB") = some ((strNatVal s : Int) * 1073741824) := by
  unfold parseSize
  rw [jsSliceLast2_append2 s "GB" rfl, jsDropLast2_append2 s "GB" rfl,
    jsParseInt_digits s h]
  rw [if_neg (by decide : ¬("GB" : String) = "MB")]
  norm_num

/-- C5: `checkUploadLimit` admits an upload of `b` bytes against limit `L`
and current usage `U` exactly when `U + b ≤ L`; when allowed it increments
the counter by `b` (recording an 86400-second expiry when `U` was 0), and
when denied it leaves the store untouched and reports usage, limit and
remaining budget. -/
theorem checkUploadLimit_boundary (r : Redis) (key : String) (b L : Int) :
    (((r.get key).getD 0 + b ≤ L →
      checkUploadLimit r key b L =
        (.allowed ((r.get key).getD 0 + b) L (L - ((r.get key).getD 0 + b)),
         if (r.get key).getD 0 = 0
           then (r.incrByN key b).expire key 86400
           else r.incrByN key b) ∧
      (checkUploadLimit r key b L).snd.get key = some ((r.get key).getD 0 + b) ∧
      (checkUploadLimit r key b L).snd.ttlOf key =
        (if (r.get key).getD 0 = 0 then some 86400 else r.ttlOf key))) ∧
    ((L < (r.get key).getD 0 + b →
      checkUploadLimit r key b L =
        (.denied "Daily upload limit exceeded" 429 ((r.get key).getD 0) L
          (max 0 (L - (r.get key).getD 0)), r))) ∧
    ((∃ cu lim rem, (checkUploadLimit r key b L).fst = .allowed cu lim rem) ↔
      (r.get key).getD 0 + b ≤ L) := by
  have hget : ∀ (x : Redis), x = r →
      (x.get key).getD 0 = (r.get key).getD 0 := fun x hx => by rw [hx]
  refine ⟨?_, ?_, ?_⟩
  · intro hle
    have hcond : ¬((r.get key).getD 0 + b > L) := not_lt.mpr hle
    constructor
    · unfold checkUploadLimit Redis.incrBy
      simp only [if_neg hcond]
    · unfold checkUploadLimit Redis.incrBy
      simp only [if_neg hcond]
      by_cases h0 : (r.get key).getD 0 = 0
      · simp only [if_pos h0]
        refine ⟨?_, ?_⟩
        · rw [Redis.get_expire, Redis.get_incrByN]
        · rw [Redis.ttlOf_expire]
      · simp only [if_neg h0]
        refine ⟨?_, ?_⟩
        · rw [Redis.get_incrByN]
        · rw [Redis.ttlOf_incrByN]
  · intro hgt
    have hcond : (r.get key).getD 0 + b > L := hgt
    unfold checkUploadLimit
    simp only [if_pos hcond]
  · constructor
    · rintro ⟨cu, lim, rem, hall⟩
      by_contra hc
      have hgt : (r.get key).getD 0 + b > L := lt_of_not_le hc
      unfold checkUploadLimit at hall
      simp only [if_pos hgt] at hall
      exact LimitDecision.noConfusion hall
    · intro hle
      have hcond : ¬((r.get key).getD 0 + b > L) := not_lt.mpr hle
      refine ⟨(r.get key).getD 0 + b, L, L - ((r.get key).getD 0 + b), ?_⟩
      unfold checkUploadLimit Redis.incrBy
      simp only [if_neg hcond]

/-- C5 witness: with usage 100 and limit 124, an upload of 24 bytes (landing
exactly on the limit) is allowed and recorded; an upload of 25 bytes (limit
plus one) is denied and the store is unchanged. -/
theorem checkUploadLimit_boundary_witness :
    checkUploadLimit ⟨[("u", 100)], []⟩ "u" 24 124 =
      (.allowed 124 124 0, ⟨[("u", 124)], []⟩) ∧
    checkUploadLimit ⟨[("u", 100)], []⟩ "u" 25 124 =
      (.denied "Daily upload limit exceeded" 429 100 124 24, ⟨[("u", 100)], []⟩) := by
  constructor
  · have h := (checkUploadLimit_boundary ⟨[("u", 100)], []⟩ "u" 24 124).1 (by decide)
    rw [h.1]
    rfl
  · have h := (checkUploadLimit_boundary ⟨[("u", 100)], []⟩ "u" 25 124).2.1 (by decide)
    rw [h]
    rfl

/-- C6 counterexample: `parseSize` is case-sensitive, so `"100mb"` does not
parse as 100 mebibytes; it falls through to the leading-integer fallback. -/
theorem parseSize_case_cex :
    parseSize "100mb" = some 100 ∧ parseSize "100mb" ≠ some 104857600 := by
  refine ⟨by rfl, ?_⟩
  intro h
  rw [show parseSize "100mb" = some 100 from rfl] at h
  simp at h

/-- C6 amended: `parseSize` matches the binary units `"MB"` and `"GB"`
case-sensitively (uppercase only); any digit string followed by `"MB"` maps
to n·1024², by `"GB"` to n·1024³; `"100MB" → 104857600`, `"1GB" → 1073741824`,
a bare integer such as `"500"` maps to itself, a lowercase-unit string such
as `"100mb"` falls back to its leading integer (100), a fully unparsable
string maps to 0, and every string whose last two characters are not exactly
`"MB"`/`"GB"` takes the leading-integer-or-0 fallback. -/
theorem parseSize_spec :
    (∀ s, isDigitStr s = true → parseSize (s ++ "MB") = some ((strNatVal s : Int) * 1048576)) ∧
    (∀ s, isDigitStr s = true → parseSize (s ++ "GB") = some ((strNatVal s : Int) * 1073741824)) ∧
    parseSize "100MB" = some 104857600 ∧
    parseSize "1GB" = some 1073741824 ∧
    parseSize "500" = some 500 ∧
    parseSize "100mb" = some 100 ∧
    parseSize "abc" = some 0 ∧
    (∀ s, jsSliceLast2 s ≠ "MB" → jsSliceLast2 s ≠ "GB" →
      parseSize s = some ((jsParseInt s).getD 0)) := by
  refine ⟨parseSize_MB, parseSize_GB, by rfl, by rfl, by rfl, by rfl, by rfl, ?_⟩
  intro s h1 h2
  unfold parseSize
  simp only [if_neg h1, if_neg h2]

/-- C6 witness: the amended statement evaluated at concrete inputs. -/
theorem parseSize_spec_witness :
    parseSize "7MB" = some 7340032 ∧
    parseSize "9GB" = some 9663676416 ∧
    parseSize "77xy" = some 77 := by
  refine ⟨?_, ?_, ?_⟩
  · have h := parseSize_spec.1 "7" (by decide)
    simpa using h
  · have h := parseSize_spec.2.1 "9" (by decide)
    simpa using h
  · have h := parseSize_spec.2.2.2.2.2.2.2 "77xy" (by decide) (by decide)
    simpa using h

/-! ## Claim theorems: storage backend -/

theorem ne_meta_self (pk : String) : ¬pk = pk ++ ".meta" :=
  fun h => append_meta_ne pk h.symm

theorem saveMetadata_valid (d : Dir) (pk : String) (f : UploadFile) (sk : String)
    (now : Int) (F : String) (hname : f.originalname = some F) (hF : F ≠ "") :
    saveMetadata d pk f sk now =
      .ok (d.write (pk ++ ".meta") (.metaOk (mkMeta sk F f.mimetype f.size now))) := by
  unfold saveMetadata mkMeta
  rw [hname]
  have hvn2 : validName (some F) = true := by
    simp [validName, hF]
  simp [hvn2]

/-- On a directory whose metadata entry parses and whose payload is present,
`downloadFile` succeeds: it returns the payload bytes, the metadata's
`originalName` and `mimeType`, the on-disk payload size, and refreshes
`lastAccessed`. -/
theorem downloadFile_ok (d1 : Dir) (pk : String) (now2 : Int) (m : Metadata) (P : Bytes)
    (h1 : d1.lookup (pk ++ ".meta") = some (.metaOk m))
    (h2 : d1.lookup pk = some (.file P)) :
    downloadFile d1 pk now2 none =
      (.ok { stream := P, mimeType := m.mimeType, originalName := m.originalName,
             size := (P.length : Int) },
       d1.write (pk ++ ".meta") (.metaOk { m with lastAccessed := now2 })) := by
  have hmne : ¬pk = pk ++ ".meta" := ne_meta_self pk
  have h3 : (d1.write (pk ++ ".meta")
      (.metaOk { m with lastAccessed := now2 })).lookup pk = some (.file P) := by
    rw [Dir.lookup_write, if_neg hmne, h2]
  simp only [downloadFile, h1, h2, Option.isNone_some, Bool.false_eq_true, if_false,
    parseMetaContent, readBytes, statSize, h3]

/-- C1: uploading a payload `P` with filename `F` and mimetype `M` and then
downloading under the returned public key yields a stream whose bytes equal
`P`, with `originalName = F`, `mimeType = M`, and `size` equal to the byte
length of `P`. -/
theorem upload_download_roundtrip (d : Dir) (pk sk : String) (f : UploadFile)
    (now now2 : Int) (P : Bytes) (F : String)
    (hbuf : f.buffer = some P) (hname : f.originalname = some F) (hF : F ≠ "") :
    ∃ d1 evs res d2,
      uploadFile d pk sk f now = (.ok (pk, sk), d1, evs) ∧
      downloadFile d1 pk now2 none = (.ok res, d2) ∧
      res.stream = P ∧ res.originalName = F ∧ res.mimeType = f.mimetype ∧
      res.size = (P.length : Int) := by
  have hmne : ¬pk = pk ++ ".meta" := ne_meta_self pk
  have hup : uploadFile d pk sk f now =
      (.ok (pk, sk),
       ((d.write pk (.file [])).write pk (.file P)).write (pk ++ ".meta")
         (.metaOk (mkMeta sk F f.mimetype f.size now)),
       [Ev.wrotePayload, Ev.wroteMeta]) := by
    simp only [uploadFile, finishUpload, hbuf,
      saveMetadata_valid _ pk f sk now F hname hF]
    rfl
  have h1 : (((d.write pk (.file [])).write pk (.file P)).write (pk ++ ".meta")
      (.metaOk (mkMeta sk F f.mimetype f.size now))).lookup (pk ++ ".meta") =
      some (.metaOk (mkMeta sk F f.mimetype f.size now)) := by
    rw [Dir.lookup_write]
    simp
  have h2 : (((d.write pk (.file [])).write pk (.file P)).write (pk ++ ".meta")
      (.metaOk (mkMeta sk F f.mimetype f.size now))).lookup pk =
      some (.file P) := by
    rw [Dir.lookup_write, if_neg hmne, Dir.lookup_write]
    simp
  exact ⟨_, _, _, _, hup, downloadFile_ok _ pk now2 _ P h1 h2, rfl, rfl, rfl, rfl⟩

/-- C1 witness: a concrete two-byte upload/download round trip. -/
theorem upload_download_roundtrip_witness :
    ∃ d1 evs res d2,
      uploadFile ⟨[]⟩ "aa" "bb"
        { buffer := some [104, 105], stream := none,
          originalname := some "test.txt", mimetype := "text/plain", size := 2 } 100 =
        (.ok ("aa", "bb"), d1, evs) ∧
      downloadFile d1 "aa" 200 none = (.ok res, d2) ∧
      res.stream = [104, 105] ∧ res.originalName = "test.txt" ∧
      res.mimeType = "text/plain" ∧ res.size = (2 : Int) :=
  upload_download_roundtrip ⟨[]⟩ "aa" "bb"
    { buffer := some [104, 105], stream := none,
      originalname := some "test.txt", mimetype := "text/plain", size := 2 }
    100 200 [104, 105] "test.txt" rfl rfl (by decide)

/-- C2: after `deleteFile` succeeds for a private key, the corresponding
public key (the one resolved by the metadata scan) has neither payload nor
metadata left in the store, and `downloadFile` for it fails with the 404
"File not found" condition. -/
theorem delete_then_download_fails (d : Dir) (sk pk : String) (u : Bool) (d' : Dir)
    (now : Int)
    (hdel : deleteFile d sk = (.ok u, d'))
    (hscan : scanPrivateKey d sk = .ok (some pk)) :
    d'.lookup pk = none ∧ d'.lookup (pk ++ ".meta") = none ∧
    (downloadFile d' pk now none).fst =
      .error { message := "File not found: " ++ pk, code := some "ENOENT",
               statusCode := some 404 } := by
  have hmne : ¬pk = pk ++ ".meta" := ne_meta_self pk
  unfold deleteFile at hdel
  rw [hscan] at hdel
  by_cases hok : ((d.lookup pk).isSome && (d.lookup (pk ++ ".meta")).isSome) = true
  · simp only [hok, if_true] at hdel
    have hd' : d' = (d.unlinkQuiet pk).unlinkQuiet (pk ++ ".meta") :=
      ((Prod.mk.injEq _ _ _ _).mp hdel).2.symm
    subst hd'
    have hl1 : ((d.unlinkQuiet pk).unlinkQuiet (pk ++ ".meta")).lookup pk = none := by
      rw [Dir.lookup_unlinkQuiet, if_neg hmne, Dir.lookup_unlinkQuiet, if_pos rfl]
    have hl2 : ((d.unlinkQuiet pk).unlinkQuiet (pk ++ ".meta")).lookup (pk ++ ".meta") =
        none := by
      rw [Dir.lookup_unlinkQuiet, if_pos rfl]
    refine ⟨hl1, hl2, ?_⟩
    simp only [downloadFile, hl2, Option.isNone_none, if_true]
    rfl
  · simp only [hok, Bool.false_eq_true, if_false] at hdel
    exact absurd ((Prod.mk.injEq _ _ _ _).mp hdel).1 (by simp)

/-- C2 witness: a concrete store with one object; delete then download. -/
theorem delete_then_download_fails_witness :
    (⟨[]⟩ : Dir).lookup "x" = none ∧
    (⟨[]⟩ : Dir).lookup ("x" ++ ".meta") = none ∧
    (downloadFile ⟨[]⟩ "x" 7 none).fst =
      .error { message := "File not found: " ++ "x", code := some "ENOENT",
               statusCode := some 404 } :=
  delete_then_download_fails
    ⟨[("x", .file [1]), ("x.meta", .metaOk (mkMeta "s" "o" "t" 1 0))]⟩
    "s" "x" true ⟨[]⟩ 7 rfl rfl

/-- C3 counterexample: with metadata and payload present, an injected failure
of the `lastAccessed` touch-write makes `downloadFile` return an error — the
stream is not returned, contradicting "the operation still returns the
payload stream successfully". -/
theorem download_touch_write_failure_cex :
    (downloadFile ⟨[("k", .file [1]), ("k.meta", .metaOk (mkMeta "s" "o" "t" 1 0))]⟩
      "k" 5 (some { message := "EACCES: permission denied", code := some "EACCES" })).fst =
      .error { message := "EACCES: permission denied", code := some "EACCES" } := by
  rfl

/-- C3 amended: when the metadata touch-write fails during `downloadFile`,
the error is propagated to the caller (rewritten to the 404 "File not found"
form only when its code is `ENOENT`); the stream is not returned and the
store is left unchanged. -/
theorem download_touch_write_failure (d : Dir) (pk : String) (now : Int) (e : JsErr)
    (m : Metadata)
    (hm : d.lookup (pk ++ ".meta") = some (.metaOk m))
    (hp : (d.lookup pk).isNone = false) :
    downloadFile d pk now (some e) = (.error (mapDownloadErr pk e), d) := by
  simp only [downloadFile, hm, hp, Option.isNone_some, Bool.false_eq_true, if_false,
    parseMetaContent]

/-- C3 witness: the amended statement at a concrete store and fault. -/
theorem download_touch_write_failure_witness :
    downloadFile ⟨[("k", .file [1]), ("k.meta", .metaOk (mkMeta "s" "o" "t" 1 0))]⟩
      "k" 5 (some { message := "EIO: i/o error", code := some "EIO" }) =
      (.error (mapDownloadErr "k" { message := "EIO: i/o error", code := some "EIO" }),
       ⟨[("k", .file [1]), ("k.meta", .metaOk (mkMeta "s" "o" "t" 1 0))]⟩) :=
  download_touch_write_failure
    ⟨[("k", .file [1]), ("k.meta", .metaOk (mkMeta "s" "o" "t" 1 0))]⟩
    "k" 5 { message := "EIO: i/o error", code := some "EIO" }
    (mkMeta "s" "o" "t" 1 0) rfl rfl

/-- C4 counterexample: an upload whose `originalname` is missing is rejected
with the validation error only after the payload write — the event trace
records the payload I/O before the rejection, contradicting "rejects ...
before performing any I/O". -/
theorem upload_invalid_name_cex :
    (uploadFile ⟨[]⟩ "aa" "bb"
      { buffer := some [1, 2, 3], stream := none, originalname := none,
        mimetype := "text/plain", size := 3 } 0).snd.snd =
      [Ev.wrotePayload, Ev.unlinkedPayload] ∧
    (uploadFile ⟨[]⟩ "aa" "bb"
      { buffer := some [1, 2, 3], stream := none, originalname := none,
        mimetype := "text/plain", size := 3 } 0).fst =
      .error { message := "Invalid original filename" } := by
  exact ⟨rfl, rfl⟩

/-- C4 amended: for an upload carrying payload data whose `originalName` is
missing, non-string, or empty, `uploadFile` rejects with the validation
error, but only after writing the payload; the failure-cleanup path then
removes it, so afterwards neither payload nor metadata is persisted under
the generated key and every other entry is untouched. -/
theorem upload_invalid_name (d : Dir) (pk sk : String) (f : UploadFile) (now : Int)
    (P : Bytes) (hbuf : f.buffer = some P) (hname : validName f.originalname = false) :
    ∃ d' evs,
      uploadFile d pk sk f now = (.error { message := "Invalid original filename" }, d', evs) ∧
      Ev.wrotePayload ∈ evs ∧
      d'.lookup pk = none ∧ d'.lookup (pk ++ ".meta") = none ∧
      ∀ n, n ≠ pk → n ≠ pk ++ ".meta" → d'.lookup n = d.lookup n := by
  have hmne : ¬pk = pk ++ ".meta" := ne_meta_self pk
  have hmne2 : ¬pk ++ ".meta" = pk := fun hh => hmne hh.symm
  have hsm : saveMetadata ((d.write pk (.file [])).write pk (.file P)) pk f sk now =
      .error { message := "Invalid original filename" } := by
    simp only [saveMetadata, hname, Bool.false_eq_true, if_false]
  have hdd : ((d.write pk (.file [])).write pk (.file P)).lookup pk = some (.file P) := by
    rw [Dir.lookup_write, if_pos rfl]
  have hddm : ((d.write pk (.file [])).write pk (.file P)).lookup (pk ++ ".meta") =
      d.lookup (pk ++ ".meta") := by
    rw [Dir.lookup_write, if_neg hmne2, Dir.lookup_write, if_neg hmne2]
  have hd1m : (((d.write pk (.file [])).write pk (.file P)).unlinkQuiet pk).lookup
      (pk ++ ".meta") = d.lookup (pk ++ ".meta") := by
    rw [Dir.lookup_unlinkQuiet, if_neg hmne2, hddm]
  have hd1p : (((d.write pk (.file [])).write pk (.file P)).unlinkQuiet pk).lookup pk =
      none := by
    rw [Dir.lookup_unlinkQuiet, if_pos rfl]
  have hframe : ∀ n, n ≠ pk → n ≠ pk ++ ".meta" →
      (((d.write pk (.file [])).write pk (.file P)).unlinkQuiet pk).lookup n =
        d.lookup n := by
    intro n hn1 hn2
    rw [Dir.lookup_unlinkQuiet, if_neg hn1, Dir.lookup_write, if_neg hn1,
      Dir.lookup_write, if_neg hn1]
  by_cases hpre : (d.lookup (pk ++ ".meta")).isSome = true
  · refine ⟨(((d.write pk (.file [])).write pk (.file P)).unlinkQuiet pk).unlinkQuiet
        (pk ++ ".meta"),
      [Ev.wrotePayload, Ev.unlinkedPayload, Ev.unlinkedMeta], ?_, ?_, ?_, ?_, ?_⟩
    · simp only [uploadFile, finishUpload, hbuf, hsm, cleanupFailedUpload, hdd,
        Option.isSome_some, if_true, hd1m, hpre]
      rfl
    · simp
    · rw [Dir.lookup_unlinkQuiet, if_neg hmne, hd1p]
    · rw [Dir.lookup_unlinkQuiet, if_pos rfl]
    · intro n hn1 hn2
      rw [Dir.lookup_unlinkQuiet, if_neg hn2]
      exact hframe n hn1 hn2
  · refine ⟨((d.write pk (.file [])).write pk (.file P)).unlinkQuiet pk,
      [Ev.wrotePayload, Ev.unlinkedPayload], ?_, ?_, ?_, ?_, ?_⟩
    · simp only [uploadFile, finishUpload, hbuf, hsm, cleanupFailedUpload, hdd,
        Option.isSome_some, if_true, hd1m, hpre]
      rfl
    · simp
    · exact hd1p
    · rw [hd1m]
      exact Option.not_isSome_iff_eq_none.mp (by simp [hpre])
    · exact hframe

/-- C4 witness: the amended statement at a concrete invalid upload. -/
theorem upload_invalid_name_witness :
    ∃ d' evs,
      uploadFile ⟨[]⟩ "aa" "bb"
        { buffer := some [1, 2, 3], stream := none, originalname := none,
          mimetype := "text/plain", size := 3 } 0 =
        (.error { message := "Invalid original filename" }, d', evs) ∧
      Ev.wrotePayload ∈ evs ∧
      d'.lookup "aa" = none ∧ d'.lookup ("aa" ++ ".meta") = none ∧
      ∀ n, n ≠ "aa" → n ≠ "aa" ++ ".meta" → d'.lookup n = (⟨[]⟩ : Dir).lookup n :=
  upload_invalid_name ⟨[]⟩ "aa" "bb"
    { buffer := some [1, 2, 3], stream := none, originalname := none,
      mimetype := "text/plain", size := 3 } 0 [1, 2, 3] rfl rfl

/-- The scan loop resolves a private key to the first matching metadata file
in enumeration order; every earlier record parses and carries a different
private key. -/
theorem scanGo_first (d : Dir) (sk : String) (fs : List String) (pk : String)
    (h : scanGo d sk fs = .ok (some pk)) :
    ∃ pre f post, fs = pre ++ f :: post ∧ pk = replaceFirstMeta f ∧
      (∃ m, parseMetaContent (d.lookup f) = .ok m ∧ m.privateKey = sk) ∧
      ∀ f' ∈ pre, ∃ m', parseMetaContent (d.lookup f') = .ok m' ∧ m'.privateKey ≠ sk := by
  induction fs with
  | nil =>
    exact absurd h (by simp [scanGo])
  | cons f rest ih =>
    unfold scanGo at h
    cases hp : parseMetaContent (d.lookup f) with
    | error e =>
      simp only [hp] at h
      exact absurd h (by simp)
    | ok m =>
      simp only [hp] at h
      by_cases hmk : m.privateKey = sk
      · rw [if_pos hmk] at h
        have hpk : pk = replaceFirstMeta f := by
          have := (Except.ok.injEq _ _).mp h
          exact (Option.some.injEq _ _).mp this |>.symm
        exact ⟨[], f, rest, rfl, hpk, ⟨m, hp, hmk⟩, by simp⟩
      · rw [if_neg hmk] at h
        obtain ⟨pre, f', post, hfs, hpk, hmatch, hpre⟩ := ih h
        refine ⟨f :: pre, f', post, by rw [hfs]; rfl, hpk, hmatch, ?_⟩
        intro f'' hf''
        rcases List.mem_cons.mp hf'' with hh | hh
        · subst hh
          exact ⟨m, hp, hmk⟩
        · exact hpre f'' hh

/-- C10: `deleteFile` removes at most one stored object: when the scan
resolves the private key to a public key (the first matching metadata record
in enumeration order — earlier records all carry other keys), only that
object's payload and metadata are removed and every other entry is left
unchanged; when the scan finds nothing (or fails), the store is untouched. -/
theorem deleteFile_at_most_one (d : Dir) (sk : String) (res : Except JsErr Bool)
    (d' : Dir) (h : deleteFile d sk = (res, d')) :
    (∀ pk, scanPrivateKey d sk = .ok (some pk) →
      d'.lookup pk = none ∧ d'.lookup (pk ++ ".meta") = none ∧
      (∀ n, n ≠ pk → n ≠ pk ++ ".meta" → d'.lookup n = d.lookup n) ∧
      (∃ pre f post, d.metaFiles = pre ++ f :: post ∧ pk = replaceFirstMeta f ∧
        (∃ m, parseMetaContent (d.lookup f) = .ok m ∧ m.privateKey = sk) ∧
        ∀ f' ∈ pre, ∃ m', parseMetaContent (d.lookup f') = .ok m' ∧
          m'.privateKey ≠ sk)) ∧
    ((scanPrivateKey d sk = .ok none ∨ (∃ e, scanPrivateKey d sk = .error e)) →
      d' = d) := by
  unfold deleteFile at h
  cases hscan : scanPrivateKey d sk with
  | error e =>
    simp only [hscan] at h
    have hd : d' = d := ((Prod.mk.injEq _ _ _ _).mp h).2.symm
    constructor
    · intro pk hpk
      exact absurd hpk (by simp)
    · intro _
      exact hd
  | ok o =>
    cases o with
    | none =>
      simp only [hscan] at h
      have hd : d' = d := ((Prod.mk.injEq _ _ _ _).mp h).2.symm
      constructor
      · intro pk hpk
        exact absurd hpk (by simp)
      · intro _
        exact hd
    | some pk0 =>
      simp only [hscan] at h
      have hd : d' = (d.unlinkQuiet pk0).unlinkQuiet (pk0 ++ ".meta") := by
        by_cases hok : ((d.lookup pk0).isSome && (d.lookup (pk0 ++ ".meta")).isSome) = true
        · simp only [hok, if_true] at h
          exact ((Prod.mk.injEq _ _ _ _).mp h).2.symm
        · simp only [hok, Bool.false_eq_true, if_false] at h
          exact ((Prod.mk.injEq _ _ _ _).mp h).2.symm
      subst hd
      constructor
      · intro pk hpk
        have hpk0 : pk = pk0 := by
          injection hpk with h1
          injection h1 with h2
          exact h2.symm
        subst hpk0
        have hmne : ¬pk = pk ++ ".meta" := ne_meta_self pk
        refine ⟨?_, ?_, ?_, ?_⟩
        · rw [Dir.lookup_unlinkQuiet, if_neg hmne, Dir.lookup_unlinkQuiet, if_pos rfl]
        · rw [Dir.lookup_unlinkQuiet, if_pos rfl]
        · intro n hn1 hn2
          rw [Dir.lookup_unlinkQuiet, if_neg hn2, Dir.lookup_unlinkQuiet, if_neg hn1]
        · exact scanGo_first d sk d.metaFiles pk hscan
      · intro hcontra
        rcases hcontra with hh | ⟨e, hh⟩
        · exact absurd hh (by simp)
        · exact absurd hh (by simp)

/-- C10 witness: two records share the same private key; only the first (in
enumeration order) is removed, the second object survives intact. -/
theorem deleteFile_at_most_one_witness :
    (deleteFile ⟨[("x", .file [1]), ("x.meta", .metaOk (mkMeta "s" "o" "t" 1 0)),
                  ("y", .file [2]), ("y.meta", .metaOk (mkMeta "s" "p" "t" 1 0))]⟩
      "s").snd.lookup "x" = none ∧
    (deleteFile ⟨[("x", .file [1]), ("x.meta", .metaOk (mkMeta "s" "o" "t" 1 0)),
                  ("y", .file [2]), ("y.meta", .metaOk (mkMeta "s" "p" "t" 1 0))]⟩
      "s").snd.lookup "y" = some (.file [2]) ∧
    (deleteFile ⟨[("x", .file [1]), ("x.meta", .metaOk (mkMeta "s" "o" "t" 1 0)),
                  ("y", .file [2]), ("y.meta", .metaOk (mkMeta "s" "p" "t" 1 0))]⟩
      "s").snd.lookup "y.meta" = some (.metaOk (mkMeta "s" "p" "t" 1 0)) := by
  have h := deleteFile_at_most_one
    ⟨[("x", .file [1]), ("x.meta", .metaOk (mkMeta "s" "o" "t" 1 0)),
      ("y", .file [2]), ("y.meta", .metaOk (mkMeta "s" "p" "t" 1 0))]⟩
    "s" (.ok true)
    ⟨[("y", .file [2]), ("y.meta", .metaOk (mkMeta "s" "p" "t" 1 0))]⟩ rfl
  have h1 := h.1 "x" rfl
  exact ⟨h1.1, (h1.2.2.1 "y" (by decide) (by decide)).trans rfl,
    (h1.2.2.1 "y.meta" (by decide) (by decide)).trans rfl⟩

/-- C9 counterexample: `RateLimitService.trackDownload` with a missing
`bytesTransferred` does not treat it as zero — the `INCRBY` fails and the
call rejects with a 503 service-unavailable error. -/
theorem trackDownload_missing_size_cex :
    (trackDownload ⟨[], []⟩ "download:127.0.0.1:2026-10-12" none).fst =
      .error { message := "ERR value is not an integer or out of range",
               statusCode := some 503 } := by
  rfl

/-- C9 amended: for a missing / non-numeric `bytesTransferred`, the live
`RateLimitService.trackDownload` rejects with a 503 error and leaves the
counter untouched, while the duplicated `RateLimitController.trackDownload`
variant validates the size to 0, completes without error, and also leaves
the counter value unchanged. -/
theorem trackDownload_missing_size (r : Redis) (key : String) :
    trackDownload r key none =
      (.error { message := "ERR value is not an integer or out of range",
                statusCode := some 503 }, r) ∧
    ∃ r2, ctrlTrackDownload r key none = (.ok (), r2) ∧
      (r2.get key).getD 0 = (r.get key).getD 0 := by
  constructor
  · rfl
  · refine ⟨(ctrlTrackDownload r key none).snd, rfl, ?_⟩
    unfold ctrlTrackDownload ctrlIncrementWithTTL
    by_cases h0 : (r.get key).getD 0 = 0
    · simp only [if_pos h0]
      rw [Redis.get_setex]
      simp [h0]
    · simp only [if_neg h0]
      rw [Redis.get_incrByN]
      simp

/-! ## Cleanup sweep: name lemmas and the loop invariant -/

theorem meta_data_eq : (".meta" : String).data = metaSuffix := rfl

theorem removeAux_noDot (cs : List Char) (h : '.' ∉ cs) :
    removeFirstMetaAux (cs ++ metaSuffix) = cs := by
  induction cs with
  | nil => rfl
  | cons c cs ih =>
    have hc : ¬c = '.' := fun hh => h (hh ▸ List.mem_cons_self c cs)
    have hcs : '.' ∉ cs := fun hh => h (List.mem_cons_of_mem c hh)
    show removeFirstMetaAux (c :: (cs ++ metaSuffix)) = c :: cs
    unfold removeFirstMetaAux
    rw [if_neg (fun hh => hc hh.1), ih hcs]

theorem replaceFirstMeta_noDot (pk : String) (h : '.' ∉ pk.data) :
    replaceFirstMeta (pk ++ ".meta") = pk := by
  unfold replaceFirstMeta
  rw [string_data_append, meta_data_eq, removeAux_noDot pk.data h]

theorem endsWithMeta_append (pk : String) : endsWithMeta (pk ++ ".meta") = true := by
  unfold endsWithMeta
  rw [string_data_append, meta_data_eq]
  have hlen : (pk.data ++ metaSuffix).length - 5 = pk.data.length := by
    simp [metaSuffix]
  rw [hlen, List.drop_left]
  simp

theorem dot_mem_simple (pk' : String) : '.' ∈ (pk' ++ ".meta").data := by
  rw [string_data_append, meta_data_eq]
  exact List.mem_append_right _ (by decide)

theorem simple_ne_noDot (f pk : String) (hf : SimpleMetaName f) (h : '.' ∉ pk.data) :
    f ≠ pk := by
  obtain ⟨pk', _, rfl⟩ := hf
  intro hh
  exact h (hh ▸ dot_mem_simple pk')

theorem append_meta_inj (pk pk' : String) (h : pk ++ ".meta" = pk' ++ ".meta") :
    pk = pk' := by
  have h2 : pk.data ++ metaSuffix = pk'.data ++ metaSuffix := by
    have := congrArg String.data h
    rwa [string_data_append, string_data_append, meta_data_eq] at this
  have h3 : pk.data = pk'.data := List.append_cancel_right h2
  have h4 : String.mk pk.data = String.mk pk'.data := congrArg String.mk h3
  exact h4

theorem lookup_deleteByPublicKey (d : Dir) (pk n : String) :
    (deleteByPublicKey d pk).lookup n =
      if n = pk ++ ".meta" then none else if n = pk then none else d.lookup n := by
  unfold deleteByPublicKey
  rw [Dir.lookup_unlinkQuiet]
  by_cases h1 : n = pk ++ ".meta"
  · simp [h1]
  · rw [if_neg h1, if_neg h1, Dir.lookup_unlinkQuiet]

theorem lookupL_mem_names (l : List (String × Entry)) (n : String) (v : Entry)
    (h : lookupL l n = some v) : n ∈ l.map Prod.fst := by
  induction l with
  | nil => simp [lookupL] at h
  | cons p rest ih =>
    obtain ⟨k, w⟩ := p
    by_cases hk : k = n
    · simp [hk]
    · rw [lookupL_cons, if_neg hk] at h
      exact List.mem_cons_of_mem _ (ih h)

theorem Dir.lookup_mem_names (d : Dir) (n : String) (v : Entry)
    (h : d.lookup n = some v) : n ∈ d.names :=
  lookupL_mem_names d.entries n v h

theorem countP_congr_mem {α : Type} (l : List α) (p q : α → Bool)
    (h : ∀ a ∈ l, p a = q a) : l.countP p = l.countP q := by
  induction l with
  | nil => rfl
  | cons a rest ih =>
    rw [List.countP_cons, List.countP_cons, h a (List.mem_cons_self a rest),
      ih (fun x hx => h x (List.mem_cons_of_mem a hx))]

theorem filterMap_congr_mem {α β : Type} (l : List α) (p q : α → Option β)
    (h : ∀ a ∈ l, p a = q a) : l.filterMap p = l.filterMap q := by
  induction l with
  | nil => rfl
  | cons a rest ih =>
    rw [List.filterMap_cons, List.filterMap_cons, h a (List.mem_cons_self a rest),
      ih (fun x hx => h x (List.mem_cons_of_mem a hx))]

theorem any_congr_mem {α : Type} (l : List α) (p q : α → Bool)
    (h : ∀ a ∈ l, p a = q a) : l.any p = l.any q := by
  induction l with
  | nil => rfl
  | cons a rest ih =>
    rw [List.any_cons, List.any_cons, h a (List.mem_cons_self a rest),
      ih (fun x hx => h x (List.mem_cons_of_mem a hx))]

/-- The loop invariant of `cleanupInactiveFiles`: over well-formed, distinct
metadata file names, the sweep counts exactly the stale parsable records as
deleted, reports exactly the unparsable ones in order, and removes exactly
the payload/metadata pairs of the stale parsable records. -/
theorem cleanupGo_spec (cutoff : Option Int) (fs : List String) (d : Dir)
    (cnt : Nat) (errs : List ErrEntry)
    (hs : ∀ f ∈ fs, SimpleMetaName f) (hnd : fs.Nodup) :
    (cleanupGo cutoff fs d cnt errs).1 = cnt + fs.countP (staleOkB d cutoff) ∧
    (cleanupGo cutoff fs d cnt errs).2.1 = errs ++ fs.filterMap (errOf d) ∧
    ∀ n, (cleanupGo cutoff fs d cnt errs).2.2.lookup n =
      (if fs.any (fun f => staleOkB d cutoff f &&
          (n == replaceFirstMeta f || n == f)) = true then none else d.lookup n) := by
  induction fs generalizing d cnt errs with
  | nil =>
    simp [cleanupGo]
  | cons f rest ih =>
    obtain ⟨pk, hdot, hfpk⟩ := hs f (List.mem_cons_self f rest)
    subst hfpk
    have hs' : ∀ f' ∈ rest, SimpleMetaName f' :=
      fun f' hf' => hs f' (List.mem_cons_of_mem _ hf')
    have hnd' : rest.Nodup := hnd.of_cons
    have hfnotin : (pk ++ ".meta") ∉ rest := (List.nodup_cons.mp hnd).1
    have hrf : replaceFirstMeta (pk ++ ".meta") = pk := replaceFirstMeta_noDot pk hdot
    cases hp : parseMetaContent (d.lookup (pk ++ ".meta")) with
    | error e =>
      have hsf : staleOkB d cutoff (pk ++ ".meta") = false := by
        simp [staleOkB, hp]
      have hef : errOf d (pk ++ ".meta") = some ⟨pk ++ ".meta", e.message⟩ := by
        simp [errOf, hp]
      have hgo : cleanupGo cutoff ((pk ++ ".meta") :: rest) d cnt errs =
          cleanupGo cutoff rest d cnt (errs ++ [⟨pk ++ ".meta", e.message⟩]) := by
        rw [cleanupGo.eq_def]
        simp only [hp]
      obtain ⟨ih1, ih2, ih3⟩ := ih d cnt (errs ++ [⟨pk ++ ".meta", e.message⟩]) hs' hnd'
      refine ⟨?_, ?_, ?_⟩
      · rw [hgo, ih1, List.countP_cons, hsf]
        simp
      · rw [hgo, ih2, List.filterMap_cons, hef, List.append_assoc]
        rfl
      · intro n
        rw [hgo, ih3 n, List.any_cons, hsf]
        simp
    | ok m =>
      by_cases hst : isStale m.lastAccessed cutoff = true
      · have hsf : staleOkB d cutoff (pk ++ ".meta") = true := by
          simp [staleOkB, hp, hst]
        have hef : errOf d (pk ++ ".meta") = none := by
          simp [errOf, hp]
        have hgo : cleanupGo cutoff ((pk ++ ".meta") :: rest) d cnt errs =
            cleanupGo cutoff rest (deleteByPublicKey d pk) (cnt + 1) errs := by
          rw [cleanupGo.eq_def]
          simp only [hp, hst, if_true, hrf]
        have hrest_lookup : ∀ f' ∈ rest,
            (deleteByPublicKey d pk).lookup f' = d.lookup f' := by
          intro f' hf'
          have hsf' := hs' f' hf'
          have hne1 : f' ≠ pk := simple_ne_noDot f' pk hsf' hdot
          have hne2 : f' ≠ pk ++ ".meta" := fun hh => hfnotin (hh ▸ hf')
          rw [lookup_deleteByPublicKey, if_neg hne2, if_neg hne1]
        have hcongr_stale : ∀ f' ∈ rest,
            staleOkB (deleteByPublicKey d pk) cutoff f' = staleOkB d cutoff f' := by
          intro f' hf'
          unfold staleOkB
          rw [hrest_lookup f' hf']
        have hcongr_err : ∀ f' ∈ rest,
            errOf (deleteByPublicKey d pk) f' = errOf d f' := by
          intro f' hf'
          unfold errOf
          rw [hrest_lookup f' hf']
        obtain ⟨ih1, ih2, ih3⟩ := ih (deleteByPublicKey d pk) (cnt + 1) errs hs' hnd'
        refine ⟨?_, ?_, ?_⟩
        · have hcc : List.countP (staleOkB (deleteByPublicKey d pk) cutoff) rest =
              List.countP (staleOkB d cutoff) rest :=
            countP_congr_mem rest _ _ hcongr_stale
          rw [hgo, ih1, hcc, List.countP_cons, hsf]
          simp
          omega
        · rw [hgo, ih2, List.filterMap_cons, hef,
            filterMap_congr_mem rest _ _ hcongr_err]
        · intro n
          rw [hgo, ih3 n, List.any_cons, hsf, hrf]
          have hany : rest.any (fun f => staleOkB (deleteByPublicKey d pk) cutoff f &&
              (n == replaceFirstMeta f || n == f)) =
              rest.any (fun f => staleOkB d cutoff f &&
              (n == replaceFirstMeta f || n == f)) := by
            apply any_congr_mem
            intro f' hf'
            rw [hcongr_stale f' hf']
          rw [hany]
          by_cases hA : rest.any (fun f => staleOkB d cutoff f &&
              (n == replaceFirstMeta f || n == f)) = true
          · simp [hA]
          · have hA2 : (rest.any fun f => staleOkB d cutoff f &&
                (n == replaceFirstMeta f || n == f)) = false := by
              simpa using hA
            rw [hA2, lookup_deleteByPublicKey]
            by_cases h1 : n = pk ++ ".meta"
            · simp [h1]
            · by_cases h2 : n = pk
              · simp [h1, h2]
              · simp [h1, h2]
      · have hstf : isStale m.lastAccessed cutoff = false := by
          simp at hst
          exact hst
        have hsf : staleOkB d cutoff (pk ++ ".meta") = false := by
          simp [staleOkB, hp, hstf]
        have hef : errOf d (pk ++ ".meta") = none := by
          simp [errOf, hp]
        have hgo : cleanupGo cutoff ((pk ++ ".meta") :: rest) d cnt errs =
            cleanupGo cutoff rest d cnt errs := by
          rw [cleanupGo.eq_def]
          simp only [hp, hstf]
          rfl
        obtain ⟨ih1, ih2, ih3⟩ := ih d cnt errs hs' hnd'
        refine ⟨?_, ?_, ?_⟩
        · rw [hgo, ih1, List.countP_cons, hsf]
          simp
        · rw [hgo, ih2, List.filterMap_cons, hef]
        · intro n
          rw [hgo, ih3 n, List.any_cons, hsf]
          simp

theorem parseInactivityPeriod_d (s : String) (h : isDigitStr s = true) :
    parseInactivityPeriod (s ++ "d") = some ((strNatVal s : Int) * 86400000) := by
  have hd : (s ++ "d").data = s.data ++ ['d'] := by
    rw [string_data_append]
  have hv : jsParseIntCh s.data = some ((strNatVal s : Int)) := jsParseInt_digits s h
  unfold parseInactivityPeriod
  rw [hd, List.getLast?_concat, List.dropLast_concat]
  simp [hv]

theorem parseInactivityPeriod_h (s : String) (h : isDigitStr s = true) :
    parseInactivityPeriod (s ++ "h") = some ((strNatVal s : Int) * 3600000) := by
  have hd : (s ++ "h").data = s.data ++ ['h'] := by
    rw [string_data_append]
  have hv : jsParseIntCh s.data = some ((strNatVal s : Int)) := jsParseInt_digits s h
  unfold parseInactivityPeriod
  rw [hd, List.getLast?_concat, List.dropLast_concat]
  simp [hv]

theorem parseInactivityPeriod_m (s : String) (h : isDigitStr s = true) :
    parseInactivityPeriod (s ++ "m") = some ((strNatVal s : Int) * 60000) := by
  have hd : (s ++ "m").data = s.data ++ ['m'] := by
    rw [string_data_append]
  have hv : jsParseIntCh s.data = some ((strNatVal s : Int)) := jsParseInt_digits s h
  unfold parseInactivityPeriod
  rw [hd, List.getLast?_concat, List.dropLast_concat]
  simp [hv]

theorem parseInactivityPeriod_default (p : String) (c : Char)
    (hlast : p.data.getLast? = some c)
    (hd : c ≠ 'd') (hh : c ≠ 'h') (hm : c ≠ 'm') :
    parseInactivityPeriod p = some 2592000000 := by
  unfold parseInactivityPeriod
  rw [hlast]
  simp only [if_neg hd, if_neg hh, if_neg hm]
  norm_num

/-- In a sweep over well-formed names, the only metadata file whose deletion
can remove the names `pk` or `pk ++ ".meta"` is `pk ++ ".meta"` itself. -/
theorem any_delete_names (d : Dir) (cutoff : Option Int) (pk : String)
    (hdot : '.' ∉ pk.data)
    (hs : ∀ f ∈ d.metaFiles, SimpleMetaName f)
    (hmem : (pk ++ ".meta") ∈ d.metaFiles) (n : String)
    (hn : n = pk ∨ n = pk ++ ".meta") :
    (d.metaFiles.any fun f => staleOkB d cutoff f &&
      (n == replaceFirstMeta f || n == f)) =
      staleOkB d cutoff (pk ++ ".meta") := by
  cases hsOk : staleOkB d cutoff (pk ++ ".meta") with
  | true =>
    apply List.any_eq_true.mpr
    refine ⟨pk ++ ".meta", hmem, ?_⟩
    rw [hsOk, replaceFirstMeta_noDot pk hdot]
    rcases hn with rfl | rfl
    · simp
    · simp
  | false =>
    refine Bool.eq_false_iff.mpr ?_
    intro hany
    obtain ⟨f', hf', hP⟩ := List.any_eq_true.mp hany
    obtain ⟨pk', hdot', rfl⟩ := hs f' hf'
    rw [Bool.and_eq_true] at hP
    obtain ⟨hstale', hor⟩ := hP
    rw [replaceFirstMeta_noDot pk' hdot', Bool.or_eq_true, beq_iff_eq, beq_iff_eq] at hor
    have hpk' : pk' = pk := by
      rcases hn with rfl | rfl
      · rcases hor with h1 | h1
        · exact h1.symm
        · exact absurd (h1 ▸ dot_mem_simple pk') hdot
      · rcases hor with h1 | h1
        · exact absurd (h1 ▸ dot_mem_simple pk) hdot'
        · exact (append_meta_inj pk pk' h1).symm
    subst hpk'
    rw [hstale'] at hsOk
    exact Bool.true_eq_false ▸ hsOk.symm ▸ (by simp at hsOk)

/-- C7: `cleanupInactiveFiles` parses the inactivity period (`<int>d` days,
`<int>h` hours, `<int>m` minutes, anything else meaning 30 days), computes
`cutoff = now - duration`, and deletes exactly the objects (payload and
metadata together) whose `lastAccessed` is strictly earlier than the cutoff;
in particular under period `"10m"` an object 11 minutes old is deleted and
one 9 minutes old survives (see the witness). -/
theorem cleanup_eviction_cutoff :
    (∀ s, isDigitStr s = true →
      parseInactivityPeriod (s ++ "d") = some ((strNatVal s : Int) * 86400000) ∧
      parseInactivityPeriod (s ++ "h") = some ((strNatVal s : Int) * 3600000) ∧
      parseInactivityPeriod (s ++ "m") = some ((strNatVal s : Int) * 60000)) ∧
    (∀ p c, p.data.getLast? = some c → c ≠ 'd' → c ≠ 'h' → c ≠ 'm' →
      parseInactivityPeriod p = some 2592000000) ∧
    (∀ d period now dur pk m,
      parseInactivityPeriod period = some dur →
      (∀ f ∈ d.metaFiles, SimpleMetaName f) →
      d.metaFiles.Nodup →
      '.' ∉ pk.data →
      d.lookup (pk ++ ".meta") = some (.metaOk m) →
      (d.lookup pk).isSome = true →
      ((cleanupInactiveFiles d period now).snd.lookup pk = none ↔
        m.lastAccessed < now - dur) ∧
      ((cleanupInactiveFiles d period now).snd.lookup (pk ++ ".meta") = none ↔
        m.lastAccessed < now - dur)) := by
  refine ⟨fun s h => ⟨parseInactivityPeriod_d s h, parseInactivityPeriod_h s h,
    parseInactivityPeriod_m s h⟩, parseInactivityPeriod_default, ?_⟩
  intro d period now dur pk m hparse hs hnd hdot hmeta hpay
  have hsnd : (cleanupInactiveFiles d period now).snd =
      (cleanupGo (some (now - dur)) d.metaFiles d 0 []).2.2 := by
    unfold cleanupInactiveFiles
    rw [hparse]
    rfl
  have hspec := cleanupGo_spec (some (now - dur)) d.metaFiles d 0 [] hs hnd
  have hlook := hspec.2.2
  have hmem : (pk ++ ".meta") ∈ d.metaFiles :=
    List.mem_filter.mpr ⟨Dir.lookup_mem_names d _ _ hmeta, endsWithMeta_append pk⟩
  have hany_pk := any_delete_names d (some (now - dur)) pk hdot hs hmem pk (Or.inl rfl)
  have hany_meta := any_delete_names d (some (now - dur)) pk hdot hs hmem
    (pk ++ ".meta") (Or.inr rfl)
  have hstale : staleOkB d (some (now - dur)) (pk ++ ".meta") =
      decide (m.lastAccessed < now - dur) := by
    simp [staleOkB, hmeta, parseMetaContent, isStale]
  constructor
  · rw [hsnd, hlook pk, hany_pk, hstale]
    by_cases hlt : m.lastAccessed < now - dur
    · simp [hlt]
    · simp [hlt, Option.isSome_iff_ne_none.mp hpay]
  · rw [hsnd, hlook (pk ++ ".meta"), hany_meta, hstale]
    by_cases hlt : m.lastAccessed < now - dur
    · simp [hlt]
    · simp [hlt, hmeta]

/-- C7 witness: sweep with period `"10m"` at `now = 10^9` ms over an object
last accessed 11 minutes ago (deleted) and one 9 minutes ago (survives). -/
theorem cleanup_eviction_cutoff_witness :
    (cleanupInactiveFiles
      ⟨[("aa", .file [1]), ("aa.meta", .metaOk (mkMeta "s" "o" "t" 1 999340000)),
        ("bb", .file [2]), ("bb.meta", .metaOk (mkMeta "s" "o" "t" 1 999460000))]⟩
      "10m" 1000000000).snd.lookup "aa" = none ∧
    ¬((cleanupInactiveFiles
      ⟨[("aa", .file [1]), ("aa.meta", .metaOk (mkMeta "s" "o" "t" 1 999340000)),
        ("bb", .file [2]), ("bb.meta", .metaOk (mkMeta "s" "o" "t" 1 999460000))]⟩
      "10m" 1000000000).snd.lookup "bb" = none) := by
  have hsimple : ∀ f ∈ (⟨[("aa", .file [1]),
      ("aa.meta", .metaOk (mkMeta "s" "o" "t" 1 999340000)),
      ("bb", .file [2]),
      ("bb.meta", .metaOk (mkMeta "s" "o" "t" 1 999460000))]⟩ : Dir).metaFiles,
      SimpleMetaName f := by
    intro f hf
    have hlist : (⟨[("aa", .file [1]),
        ("aa.meta", .metaOk (mkMeta "s" "o" "t" 1 999340000)),
        ("bb", .file [2]),
        ("bb.meta", .metaOk (mkMeta "s" "o" "t" 1 999460000))]⟩ : Dir).metaFiles =
        ["aa.meta", "bb.meta"] := rfl
    rw [hlist] at hf
    rcases List.mem_cons.mp hf with rfl | hf2
    · exact ⟨"aa", by decide, by decide⟩
    rcases List.mem_cons.mp hf2 with rfl | hf3
    · exact ⟨"bb", by decide, by decide⟩
    · simp at hf3
  have h1 := (cleanup_eviction_cutoff.2.2
    ⟨[("aa", .file [1]), ("aa.meta", .metaOk (mkMeta "s" "o" "t" 1 999340000)),
      ("bb", .file [2]), ("bb.meta", .metaOk (mkMeta "s" "o" "t" 1 999460000))]⟩
    "10m" 1000000000 600000 "aa" (mkMeta "s" "o" "t" 1 999340000)
    rfl hsimple (by decide) (by decide) rfl rfl).1
  have h2 := (cleanup_eviction_cutoff.2.2
    ⟨[("aa", .file [1]), ("aa.meta", .metaOk (mkMeta "s" "o" "t" 1 999340000)),
      ("bb", .file [2]), ("bb.meta", .metaOk (mkMeta "s" "o" "t" 1 999460000))]⟩
    "10m" 1000000000 600000 "bb" (mkMeta "s" "o" "t" 1 999460000)
    rfl hsimple (by decide) (by decide) rfl rfl).1
  exact ⟨h1.mpr (by decide), fun hc => absurd (h2.mp hc) (by decide)⟩

/-- C8: a sweep over metadata files `pre ++ [k] ++ post` in which `k` is
unparsable and every other record parses reports exactly one error entry
(for `k`, with its name and the parse-error description), an `errorCount`
of 1, a `deletedCount` equal to the number of stale objects among the other
records, and still deletes stale objects occurring after `k` — the sweep
never aborts early. -/
theorem cleanup_sweep_isolation (d : Dir) (period : String) (now : Int)
    (pre post : List String) (k raw : String)
    (hs : ∀ f ∈ d.metaFiles, SimpleMetaName f)
    (hnd : d.metaFiles.Nodup)
    (hsplit : d.metaFiles = pre ++ k :: post)
    (hk : d.lookup k = some (.metaBad raw))
    (hok : ∀ f ∈ pre ++ post, ∃ m, d.lookup f = some (.metaOk m)) :
    (cleanupInactiveFiles d period now).fst.errors =
      [⟨k, "Unexpected token in JSON"⟩] ∧
    (cleanupInactiveFiles d period now).fst.errorCount = 1 ∧
    (cleanupInactiveFiles d period now).fst.deletedCount =
      (pre ++ post).countP (staleOkB d
        ((parseInactivityPeriod period).map (fun dur => now - dur))) ∧
    (∀ f pk' m, f ∈ post → '.' ∉ pk'.data → f = pk' ++ ".meta" →
      d.lookup f = some (.metaOk m) →
      isStale m.lastAccessed
        ((parseInactivityPeriod period).map (fun dur => now - dur)) = true →
      (cleanupInactiveFiles d period now).snd.lookup pk' = none) := by
  have hspec := cleanupGo_spec
    ((parseInactivityPeriod period).map (fun dur => now - dur)) d.metaFiles d 0 [] hs hnd
  have herr_pre : ∀ f ∈ pre,
      errOf d f = none := by
    intro f hf
    obtain ⟨m, hm⟩ := hok f (List.mem_append_left _ hf)
    simp [errOf, hm, parseMetaContent]
  have herr_post : ∀ f ∈ post,
      errOf d f = none := by
    intro f hf
    obtain ⟨m, hm⟩ := hok f (List.mem_append_right _ hf)
    simp [errOf, hm, parseMetaContent]
  have herr_k : errOf d k = some ⟨k, "Unexpected token in JSON"⟩ := by
    simp [errOf, hk, parseMetaContent, jsonParseErr]
  have herrs : (cleanupInactiveFiles d period now).fst.errors =
      [⟨k, "Unexpected token in JSON"⟩] := by
    have : (cleanupInactiveFiles d period now).fst.errors =
        (cleanupGo ((parseInactivityPeriod period).map (fun dur => now - dur))
          d.metaFiles d 0 []).2.1 := rfl
    rw [this, hspec.2.1, hsplit, List.filterMap_append, List.filterMap_cons, herr_k,
      List.filterMap_eq_nil_iff.mpr herr_pre, List.filterMap_eq_nil_iff.mpr herr_post]
    rfl
  have hsk : staleOkB d ((parseInactivityPeriod period).map (fun dur => now - dur)) k =
      false := by
    simp [staleOkB, hk, parseMetaContent]
  refine ⟨herrs, ?_, ?_, ?_⟩
  · have : (cleanupInactiveFiles d period now).fst.errorCount =
        (cleanupInactiveFiles d period now).fst.errors.length := rfl
    rw [this, herrs]
    rfl
  · have : (cleanupInactiveFiles d period now).fst.deletedCount =
        (cleanupGo ((parseInactivityPeriod period).map (fun dur => now - dur))
          d.metaFiles d 0 []).1 := rfl
    rw [this, hspec.1, hsplit, List.countP_append, List.countP_cons, hsk,
      List.countP_append]
    simp
  · intro f pk' m hfpost hdot' hfeq hm hstale
    have hmem : f ∈ d.metaFiles := by
      rw [hsplit]
      exact List.mem_append_right _ (List.mem_cons_of_mem _ hfpost)
    have hP : (staleOkB d ((parseInactivityPeriod period).map (fun dur => now - dur)) f &&
        (pk' == replaceFirstMeta f || pk' == f)) = true := by
      have h1 : staleOkB d ((parseInactivityPeriod period).map (fun dur => now - dur)) f =
          true := by
        simp [staleOkB, hm, parseMetaContent, hstale]
      have h2 : replaceFirstMeta f = pk' := by
        rw [hfeq]
        exact replaceFirstMeta_noDot pk' hdot'
      rw [h1, h2]
      simp
    have hany : (d.metaFiles.any fun f =>
        staleOkB d ((parseInactivityPeriod period).map (fun dur => now - dur)) f &&
        (pk' == replaceFirstMeta f || pk' == f)) = true :=
      List.any_eq_true.mpr ⟨f, hmem, hP⟩
    have hsnd : (cleanupInactiveFiles d period now).snd =
        (cleanupGo ((parseInactivityPeriod period).map (fun dur => now - dur))
          d.metaFiles d 0 []).2.2 := rfl
    rw [hsnd, hspec.2.2 pk', hany]
    rfl

/-- C8 witness: three objects, the middle one's metadata corrupted; the sweep
reports exactly its error, deletes the two stale neighbours (including the
one after the corrupted object), and never aborts. -/
theorem cleanup_sweep_isolation_witness :
    (cleanupInactiveFiles
      ⟨[("aa", .file [1]), ("aa.meta", .metaOk (mkMeta "s" "o" "t" 1 0)),
        ("kk", .file [9]), ("kk.meta", .metaBad "oops"),
        ("cc", .file [3]), ("cc.meta", .metaOk (mkMeta "s" "o" "t" 1 0))]⟩
      "10m" 1000000000).fst.errors = [⟨"kk.meta", "Unexpected token in JSON"⟩] ∧
    (cleanupInactiveFiles
      ⟨[("aa", .file [1]), ("aa.meta", .metaOk (mkMeta "s" "o" "t" 1 0)),
        ("kk", .file [9]), ("kk.meta", .metaBad "oops"),
        ("cc", .file [3]), ("cc.meta", .metaOk (mkMeta "s" "o" "t" 1 0))]⟩
      "10m" 1000000000).fst.errorCount = 1 ∧
    (cleanupInactiveFiles
      ⟨[("aa", .file [1]), ("aa.meta", .metaOk (mkMeta "s" "o" "t" 1 0)),
        ("kk", .file [9]), ("kk.meta", .metaBad "oops"),
        ("cc", .file [3]), ("cc.meta", .metaOk (mkMeta "s" "o" "t" 1 0))]⟩
      "10m" 1000000000).fst.deletedCount = 2 ∧
    (cleanupInactiveFiles
      ⟨[("aa", .file [1]), ("aa.meta", .metaOk (mkMeta "s" "o" "t" 1 0)),
        ("kk", .file [9]), ("kk.meta", .metaBad "oops"),
        ("cc", .file [3]), ("cc.meta", .metaOk (mkMeta "s" "o" "t" 1 0))]⟩
      "10m" 1000000000).snd.lookup "cc" = none := by
  have hsimple : ∀ f ∈ (⟨[("aa", .file [1]),
      ("aa.meta", .metaOk (mkMeta "s" "o" "t" 1 0)),
      ("kk", .file [9]), ("kk.meta", .metaBad "oops"),
      ("cc", .file [3]),
      ("cc.meta", .metaOk (mkMeta "s" "o" "t" 1 0))]⟩ : Dir).metaFiles,
      SimpleMetaName f := by
    intro f hf
    have hlist : (⟨[("aa", .file [1]),
        ("aa.meta", .metaOk (mkMeta "s" "o" "t" 1 0)),
        ("kk", .file [9]), ("kk.meta", .metaBad "oops"),
        ("cc", .file [3]),
        ("cc.meta", .metaOk (mkMeta "s" "o" "t" 1 0))]⟩ : Dir).metaFiles =
        ["aa.meta", "kk.meta", "cc.meta"] := rfl
    rw [hlist] at hf
    rcases List.mem_cons.mp hf with rfl | hf2
    · exact ⟨"aa", by decide, by decide⟩
    rcases List.mem_cons.mp hf2 with rfl | hf3
    · exact ⟨"kk", by decide, by decide⟩
    rcases List.mem_cons.mp hf3 with rfl | hf4
    · exact ⟨"cc", by decide, by decide⟩
    · simp at hf4
  have hok : ∀ f ∈ (["aa.meta"] ++ ["cc.meta"] : List String),
      ∃ m, (⟨[("aa", .file [1]),
        ("aa.meta", .metaOk (mkMeta "s" "o" "t" 1 0)),
        ("kk", .file [9]), ("kk.meta", .metaBad "oops"),
        ("cc", .file [3]),
        ("cc.meta", .metaOk (mkMeta "s" "o" "t" 1 0))]⟩ : Dir).lookup f =
        some (.metaOk m) := by
    intro f hf
    rcases List.mem_cons.mp hf with rfl | hf2
    · exact ⟨mkMeta "s" "o" "t" 1 0, rfl⟩
    rcases List.mem_cons.mp hf2 with rfl | hf3
    · exact ⟨mkMeta "s" "o" "t" 1 0, rfl⟩
    · simp at hf3
  have h := cleanup_sweep_isolation
    ⟨[("aa", .file [1]), ("aa.meta", .metaOk (mkMeta "s" "o" "t" 1 0)),
      ("kk", .file [9]), ("kk.meta", .metaBad "oops"),
      ("cc", .file [3]), ("cc.meta", .metaOk (mkMeta "s" "o" "t" 1 0))]⟩
    "10m" 1000000000 ["aa.meta"] ["cc.meta"] "kk.meta" "oops"
    hsimple (by decide) rfl rfl hok
  exact ⟨h.1, h.2.1, h.2.2.1.trans (by decide),
    h.2.2.2 "cc.meta" "cc" (mkMeta "s" "o" "t" 1 0) (by simp) (by decide)
      (by decide) rfl (by decide)⟩

end FileSharing

